import Mathlib

/-!
Verification development for the turn-based roguelike simulation core.

Shallow embedding of the repository's Python sources:
  gameplay/rules/dice.py, gameplay/rules/attack.py, gameplay/rules/damage.py,
  gameplay/ecs/world.py, gameplay/ecs/systems/{movement,combat,combat_state,ai}_system.py,
  util/pathfinding.py, gameplay/dungeon/fov.py.

Conventions used throughout:
  * Python ints are modelled as `Int`; Python floats that only ever carry
    fractional resist/crit values are modelled as `Rat`.
  * RNG draws are oracle inputs: each random draw the code performs is a
    parameter of the embedded function (a single `Int`, a `Bool`, or a
    stream `Nat → Int`).
  * Python dicts keyed by entity id are modelled as cons-based association
    lists (insertion = cons, lookup = first match), Python sets as `Finset`.
  * Unbounded `while` loops (A* search, Bresenham stepping, path
    reconstruction) are modelled with an explicit fuel argument that is
    large enough for every input considered.
-/

namespace RPG

/-- A grid point `(x, y)`, `core.types.Point`. -/
abbrev Pt := Int × Int

/-! ## Events (core/events.py) -/

/-- The event variants from `core/events.py` that the verified systems
produce or consume (plus `Message` payload as a `String`). -/
inductive GEvent where
  | moveRequested (eid : Int) (toXY : Pt)
  | moveResolved (eid : Int) (fromXY toXY : Pt)
  | bump (eid targetEid : Int)
  | attackRequested (attackerEid targetEid : Int)
  | damageApplied (targetEid : Int) (amount : Int) (dtype : String) (sourceEid : Int)
  | entityDied (eid : Int) (killerEid : Int)
  | message (text : String)
  deriving DecidableEq, Repr

/-! ## Components (gameplay/ecs/components.py) -/

/-- `CPosition(x, y, z=0)`. -/
structure CPosition where
  x : Int
  y : Int
  z : Int := 0
  deriving DecidableEq, Repr

/-- `CHealth(hp, max_hp, is_dead=False)`. -/
structure CHealth where
  hp : Int
  maxHp : Int
  isDead : Bool := false
  deriving DecidableEq, Repr

/-- `CStats`: the six integer stats plus the two float crit fields
(floats modelled as rationals). -/
structure CStats where
  strength : Int
  agility : Int
  intellect : Int
  accuracy : Int
  evasion : Int
  critChance : Rat
  critMult : Rat
  deriving DecidableEq, Repr

/-- `CBlocker(passable)`. -/
structure CBlocker where
  passable : Bool
  deriving DecidableEq, Repr

/-! ## Dice (gameplay/rules/dice.py)

`DiceRoller.roll` parses its expression string with three regexes:
a single optional dice term `(\d+)d(\d+)`, signed integer constants
`([+-]\d+)`, and signed attribute references `([+-])(STR|AGI|INT)(?:/(\d+))?`.
`DiceExpr` is that parsed shape; the arithmetic below follows the source
line by line on it. -/

/-- The three attribute tokens the dice regex recognises. -/
inductive Attr where
  | STR
  | AGI
  | INT
  deriving DecidableEq, Repr

/-- Parsed form of a dice expression as extracted by the regexes of
`DiceRoller.roll`: an optional `(num, size)` dice term (digits, hence
non-negative), the list of signed integer constants, and the list of
signed attribute references with optional divisor. -/
structure DiceExpr where
  dice : Option (Nat × Nat)
  consts : List Int
  attrs : List (Bool × Attr × Option Nat)
  deriving DecidableEq, Repr

/-- Breakdown dict of `DiceRoller.roll`: `dice_total`, `mod_total`,
`dice_rolls`. -/
structure Breakdown where
  diceTotal : Int
  modTotal : Int
  diceRolls : List Int
  deriving DecidableEq, Repr

/-- Result of `DiceRoller.roll`: clamped total, breakdown, and the index of
the next unconsumed RNG draw. -/
structure RollOut where
  total : Int
  bd : Breakdown
  next : Nat
  deriving Repr

/-- One signed attribute modifier: `attrs.get(attr, 0)`, floor-divided by
the divisor when one is present and positive, then negated on a `-` sign.
Python `//` is floor division, hence `Int.fdiv`. -/
def attrTerm (attrs : Attr → Int) (t : Bool × Attr × Option Nat) : Int :=
  let v0 := attrs t.2.1
  let v1 := match t.2.2 with
    | some d => if 0 < d then Int.fdiv v0 (d : Int) else v0
    | none => v0
  if t.1 then -v1 else v1

/-- `DiceRoller.roll(expr, attrs)` with the RNG as a draw stream: draw `i`
stands for the `i`-th `randint(1, die_size)` result, starting at `start`.
Zero or negative dice count/size leaves the dice part empty; the total is
clamped at 0 while the breakdown stays unclamped. -/
def diceRoll (draws : Nat → Int) (start : Nat) (expr : DiceExpr) (attrs : Attr → Int) :
    RollOut :=
  let (rolls, next) := match expr.dice with
    | some (n, s) =>
        if 0 < n ∧ 0 < s then ((List.range n).map (fun i => draws (start + i)), start + n)
        else ([], start)
    | none => ([], start)
  let diceTotal := rolls.sum
  let modTotal := expr.consts.sum + (expr.attrs.map (attrTerm attrs)).sum
  let total := diceTotal + modTotal
  ⟨if total < 0 then 0 else total, ⟨diceTotal, modTotal, rolls⟩, next⟩

/-! ## Weapons, armor, damage (gameplay/rules/damage.py) -/

/-- The damage-type string constant compared against in `apply_melee_ranged`. -/
def physicalType : String := "Physical"

/-- `CWeapon`: damage dice (parsed), damage type, reach, tags. -/
structure CWeapon where
  damageDice : DiceExpr
  damageType : String
  reach : Int := 1
  tags : List String := []
  deriving DecidableEq, Repr

/-- `CArmor`: soak dice (`none` models the falsy empty string), resist and
spell-resist maps as association lists. -/
structure CArmor where
  soakDice : Option DiceExpr
  resist : List (String × Rat) := []
  spellResist : List (String × Rat) := []
  deriving DecidableEq, Repr

/-- `dict.get(key, default)` on an association list. -/
def alistGetD (m : List (String × Rat)) (k : String) (d : Rat) : Rat :=
  match m.find? (fun e => e.1 = k) with
  | some e => e.2
  | none => d

/-- `DamageResult` named tuple. -/
structure DamageResult where
  finalDamage : Int
  originalDamage : Int
  soakAmount : Int
  resistMult : Rat
  damageType : String
  deriving DecidableEq, Repr

/-- Python `int()` on a rational: truncation toward zero. -/
def ratTrunc (q : Rat) : Int :=
  if q < 0 then -(Int.floor (-q)) else Int.floor q

/-- The attribute context `{'STR': strength, 'AGI': agility, 'INT': intellect}`
built from attacker stats. -/
def attrsOf (st : CStats) : Attr → Int := fun a =>
  match a with
  | Attr.STR => st.strength
  | Attr.AGI => st.agility
  | Attr.INT => st.intellect

/-- `apply_melee_ranged(attacker_stats, weapon, defender_armor, is_crit, rng)`.
The weapon dice are rolled first from the stream (at index 0); the soak dice,
when rolled, consume the following draws. On a crit the base is recomputed as
`2 * dice_total + mod_total`. -/
def applyMeleeRanged (attackerStats : CStats) (weapon : CWeapon)
    (defenderArmor : Option CArmor) (isCrit : Bool) (draws : Nat → Int) :
    DamageResult :=
  let r := diceRoll draws 0 weapon.damageDice (attrsOf attackerStats)
  let finalBase := if isCrit then r.bd.diceTotal * 2 + r.bd.modTotal else r.total
  let (soakAmount, resistMult) :=
    match defenderArmor with
    | some armor =>
        if weapon.damageType = physicalType then
          let soak := match armor.soakDice with
            | some sd => (diceRoll draws r.next sd (fun _ => 0)).total
            | none => 0
          (soak, 1 - alistGetD armor.resist physicalType 0)
        else
          (0, 1 - alistGetD armor.resist weapon.damageType 0)
    | none => (0, (1 : Rat))
  let afterSoak := max 0 (finalBase - soakAmount)
  let finalDamage := ratTrunc ((afterSoak : Rat) * resistMult)
  ⟨finalDamage, finalBase, soakAmount, resistMult, weapon.damageType⟩

/-! ## Attack resolution (gameplay/rules/attack.py) -/

/-- `AttackResult` dataclass. -/
structure AttackResult where
  hit : Bool
  crit : Bool
  roll : Int
  target : Int
  deriving DecidableEq, Repr

/-- `to_hit(attacker_stats, defender_stats, context, rng)`.
`roll` is the d20 draw the source takes from the RNG; `critDraw` is the
outcome of the comparison `r.random() * 100.0 < clamp(crit_chance, 0, 100)`
the source evaluates only when the attack hits. -/
def toHit (attackerStats defenderStats : CStats) (weaponBonus cover : Int)
    (roll : Int) (critDraw : Bool) : AttackResult :=
  let attackBonus := attackerStats.accuracy + weaponBonus
  let defenseValue := 10 + defenderStats.evasion + cover
  if roll = 1 then
    ⟨false, false, roll, defenseValue⟩
  else
    let hit := if roll = 20 then true else decide (roll + attackBonus ≥ defenseValue)
    let crit := if hit then critDraw else false
    ⟨hit, crit, roll, defenseValue⟩

/-! ## Combat system (gameplay/ecs/systems/combat_system.py) -/

/-- The implicit unarmed weapon `CWeapon(damage_dice="1d4+STR",
damage_type="Physical")`. -/
def unarmedWeapon : CWeapon :=
  ⟨⟨some (1, 4), [], [(false, Attr.STR, none)]⟩, physicalType, 1, []⟩

/-- `CombatSystem._handle_attack` on one `AttackRequested(attacker, target)`.
Inputs are the component lookups the source performs and the RNG draws it
takes (`roll`/`critDraw` for `to_hit`, `draws` for the damage dice).
Returns the target's updated `CHealth` (unchanged when the source aborts on
missing components) and the list of events posted, in posting order. -/
def handleAttack (attackerEid targetEid : Int)
    (attackerStats : Option CStats) (targetHealth : Option CHealth)
    (targetStats : Option CStats) (weapon : Option CWeapon)
    (targetArmor : Option CArmor) (roll : Int) (critDraw : Bool)
    (draws : Nat → Int) : Option CHealth × List GEvent :=
  match attackerStats, targetHealth, targetStats with
  | some atkStats, some tgtHealth, some tgtStats =>
      let wpn := weapon.getD unarmedWeapon
      let attackResult := toHit atkStats tgtStats 0 0 roll critDraw
      let (hp1, events1) :=
        if attackResult.hit then
          let dr := applyMeleeRanged atkStats wpn targetArmor attackResult.crit draws
          let hp0 := tgtHealth.hp - dr.finalDamage
          (max 0 hp0,
            [GEvent.damageApplied targetEid dr.finalDamage dr.damageType attackerEid])
        else
          (tgtHealth.hp, [])
      let targetDied := hp1 ≤ 0
      let health' : CHealth :=
        ⟨hp1, tgtHealth.maxHp, if targetDied then true else tgtHealth.isDead⟩
      let events2 := if targetDied then [GEvent.entityDied targetEid attackerEid] else []
      (some health', events1 ++ events2)
  | _, _, _ => (targetHealth, [])

/-! ## Combat-state system (gameplay/ecs/systems/combat_state_system.py) -/

/-- `CombatStateSystem.can_move_freely(eid, from_pos, to_pos)`:
true when `eid` is not among the combat participants, otherwise true exactly
when the move stays within Chebyshev distance 1 of the current position. -/
def canMoveFreely (participants : Finset Int) (eid : Int) (fromPos toPos : Pt) : Bool :=
  if eid ∉ participants then true
  else
    let dx := |toPos.1 - fromPos.1|
    let dy := |toPos.2 - fromPos.2|
    decide (max dx dy ≤ 1)

/-! ## Movement system (gameplay/ecs/systems/movement_system.py) -/

/-- A rectangular tile grid exposing walkability, `grid[y][x].walkable` for
`0 ≤ x < W`, `0 ≤ y < H`. -/
structure WalkGrid where
  W : Int
  H : Int
  walkable : Int → Int → Bool

/-- What the movement loop needs to know about one entity found at the
destination tile: its id and its `CHealth`/`CBlocker` lookups. -/
structure EntInfo where
  eid : Int
  health : Option CHealth
  blocker : Option CBlocker
  deriving DecidableEq, Repr

/-- Outcome of scanning the entities at the destination tile. -/
inductive OccCheck where
  | combat (targetEid : Int)
  | blockedTile
  | free
  deriving DecidableEq, Repr

/-- The `for target_eid in entities_at_target` loop of
`MovementSystem._handle_move_request`: skip the mover itself; on the first
other entity whose `CHealth` is present and not dead, report combat with it;
otherwise, on the first entity with a non-passable `CBlocker`, report a
silent block; report free when the list is exhausted. -/
def occScan (eid : Int) : List EntInfo → OccCheck
  | [] => OccCheck.free
  | o :: rest =>
      if o.eid = eid then occScan eid rest
      else if (match o.health with | some h => !h.isDead | none => false) then
        OccCheck.combat o.eid
      else if (match o.blocker with | some b => !b.passable | none => false) then
        OccCheck.blockedTile
      else occScan eid rest

/-- The `self.combat_state_system and not ...can_move_freely(...)` test of
`_handle_move_request`: true when a combat-state system is wired in and its
lock forbids the move. -/
def lockBlocks (css : Option (Finset Int)) (eid : Int) (fromPos toXY : Pt) : Bool :=
  match css with
  | some parts => ! canMoveFreely parts eid fromPos toXY
  | none => false

/-- The message posted when the engagement lock rejects a move. -/
def fleeMsg : String := "Cannot flee from combat!"

/-- The message posted when the destination is out of bounds. -/
def boundsMsg : String := "Can't go that way!"

/-- `MovementSystem._handle_move_request(event)` for `MoveRequested(eid, to)`.
Inputs mirror the lookups the source makes: the mover's current position,
the optional combat-state system (its participant set), the optional dungeon
grid, the `entities_at(to)` result in iteration order, and the player id and
position used for the post-move adjacency attack. Returns the mover's
position after the call and the events posted, in order. -/
def handleMoveRequest (eid : Int) (toXY : Pt) (curPos : Option CPosition)
    (css : Option (Finset Int)) (grid : Option WalkGrid)
    (occupants : List EntInfo) (playerEid : Option Int)
    (playerPos : Option CPosition) : Option CPosition × List GEvent :=
  match curPos with
  | none => (none, [])
  | some pos =>
      let fromPos : Pt := (pos.x, pos.y)
      if lockBlocks css eid fromPos toXY then
        (some pos, [GEvent.message fleeMsg])
      else
        let gridReject : Option (Option CPosition × List GEvent) :=
          match grid with
          | some g =>
              if ¬ (0 ≤ toXY.1 ∧ toXY.1 < g.W ∧ 0 ≤ toXY.2 ∧ toXY.2 < g.H) then
                some (some pos, [GEvent.message boundsMsg])
              else if ¬ g.walkable toXY.1 toXY.2 then
                some (some pos, [])
              else none
          | none => none
        match gridReject with
        | some out => out
        | none =>
            match occScan eid occupants with
            | OccCheck.combat targetEid =>
                (some pos, [GEvent.bump eid targetEid,
                            GEvent.attackRequested eid targetEid])
            | OccCheck.blockedTile => (some pos, [])
            | OccCheck.free =>
                let pos' : CPosition := ⟨toXY.1, toXY.2, pos.z⟩
                let moveEvents := [GEvent.moveResolved eid fromPos toXY]
                let adjAttack :=
                  match playerEid, playerPos with
                  | some pid, some ppos =>
                      if eid ≠ pid ∧
                          |pos'.x - ppos.x| + |pos'.y - ppos.y| = 1 then
                        [GEvent.attackRequested eid pid]
                      else []
                  | _, _ => []
                (some pos', moveEvents ++ adjAttack)

/-! ## Entity store (gameplay/ecs/world.py) -/

/-- `World`: next entity id, live-entity set, and per-component-type sparse
storage. The storage `comps t` is the dict for component type `t`, as a
cons-based association list (latest insertion found first), so lookups and
key-membership have exactly Python-dict semantics. -/
structure World (κ V : Type) where
  nextId : Int
  entities : Finset Int
  comps : κ → List (Int × V)

/-- Dict lookup `d.get(eid)`: first matching entry, `none` when absent. -/
def dictGet {V : Type} (m : List (Int × V)) (eid : Int) : Option V :=
  match m.find? (fun e => e.1 = eid) with
  | some e => some e.2
  | none => none

namespace World

variable {κ V : Type} [DecidableEq κ]

/-- `World.create_entity`. -/
def create (w : World κ V) : Int × World κ V :=
  (w.nextId, ⟨w.nextId + 1, insert w.nextId w.entities, w.comps⟩)

/-- `World.destroy_entity(eid)`: when live, remove from the live set and pop
`eid` from every component dict. -/
def destroy (w : World κ V) (eid : Int) : World κ V :=
  if eid ∈ w.entities then
    ⟨w.nextId, w.entities.erase eid,
      fun t => (w.comps t).filter (fun e => ¬ e.1 = eid)⟩
  else w

/-- `World.add(eid, component)`: insert/overwrite in the dict of that type. -/
def add (w : World κ V) (eid : Int) (t : κ) (v : V) : World κ V :=
  ⟨w.nextId, w.entities,
    fun t' => if t' = t then (eid, v) :: w.comps t else w.comps t'⟩

/-- `World.get(eid, component_type)`: `self._components[t].get(eid)`. -/
def get (w : World κ V) (eid : Int) (t : κ) : Option V :=
  dictGet (w.comps t) eid

/-- `World.has(eid, *types)`: `all(eid in self._components[ct] ...)`. -/
def hasAll (w : World κ V) (eid : Int) (ts : List κ) : Bool :=
  ts.all (fun t => (w.get eid t).isSome)

/-- Key set of one component dict. -/
def keySet (m : List (Int × V)) : Finset Int :=
  m.foldr (fun e s => insert e.1 s) ∅

/-- `World.entities_with(*types)`: with no types, the live set; otherwise the
intersection of the per-type key sets, intersected with the live set. -/
def entitiesWith (w : World κ V) (ts : List κ) : Finset Int :=
  match ts with
  | [] => w.entities
  | t :: rest =>
      (rest.foldl (fun s t' => s ∩ keySet (w.comps t')) (keySet (w.comps t)))
        ∩ w.entities

/-- Every id carrying a component or membership in the live set was handed
out by `create`: the well-formedness invariant the store's API maintains. -/
def Allocated (w : World κ V) : Prop :=
  (∀ i ∈ w.entities, i < w.nextId) ∧
  (∀ (t : κ) (i : Int), (w.get i t).isSome → i < w.nextId)

end World

/-! ## Pathfinding (util/pathfinding.py) -/

/-- One open-heap item `(f_score, node)`; scores are integer-valued floats
in the source, modelled as `Nat`. -/
abbrev OpenItem := Nat × Pt

/-- The total order `heapq` compares items with: Python tuple comparison on
`(f, (x, y))`, i.e. lexicographic. -/
def itemLe (a b : OpenItem) : Bool :=
  decide (a.1 < b.1) ||
    (decide (a.1 = b.1) &&
      (decide (a.2.1 < b.2.1) ||
        (decide (a.2.1 = b.2.1) && decide (a.2.2 ≤ b.2.2))))

/-- `heapq.heappop`: remove and return the least item of the open list
under `itemLe`. -/
def popMin : List OpenItem → Option (OpenItem × List OpenItem)
  | [] => none
  | a :: rest =>
      match popMin rest with
      | none => some (a, [])
      | some (m, rest') => if itemLe a m then some (a, rest) else some (m, a :: rest')

/-- Manhattan heuristic of `find_path`. -/
def manhattan (a b : Pt) : Nat :=
  (a.1 - b.1).natAbs + (a.2 - b.2).natAbs

/-- `get_neighbors(pos)`: the four orthogonal neighbors, in the source's
order, that are in bounds, on a walkable tile, and not dynamically blocked
(`world.is_blocked`, supplied as the `blocked` predicate). -/
def getNeighbors (g : WalkGrid) (blocked : Int → Int → Bool) (pos : Pt) : List Pt :=
  ([(0, 1), (0, -1), (1, 0), (-1, 0)] : List Pt).filterMap (fun d =>
    let np : Pt := (pos.1 + d.1, pos.2 + d.2)
    if (0 ≤ np.1 ∧ np.1 < g.W ∧ 0 ≤ np.2 ∧ np.2 < g.H)
        ∧ g.walkable np.1 np.2 ∧ ¬ blocked np.1 np.2 then
      some np
    else none)

/-- Path reconstruction: `path = [current]; while current in came_from: ...;
path.reverse()`, with fuel for the unbounded loop. -/
def reconstruct (cameFrom : List (Pt × Pt)) : Nat → Pt → List Pt → List Pt
  | 0, _, acc => acc.reverse
  | fuel + 1, cur, acc =>
      match (cameFrom.find? (fun e => e.1 = cur)).map (fun e => e.2) with
      | none => acc.reverse
      | some parent => reconstruct cameFrom fuel parent (acc ++ [parent])

/-- Relax one neighbor: the `if neighbor not in g_score or tentative_g <
g_score[neighbor]` body, threading `(open_heap, came_from, g_score)`. The
`f_score` dict is written but never read by the source, so it is omitted. -/
def relaxNeighbor (goal cur : Pt) (tentativeG : Nat)
    (st : List OpenItem × List (Pt × Pt) × List (Pt × Nat)) (nb : Pt) :
    List OpenItem × List (Pt × Pt) × List (Pt × Nat) :=
  let (openh, cameFrom, gScore) := st
  let keep := match (gScore.find? (fun e => e.1 = nb)).map (fun e => e.2) with
    | none => true
    | some gOld => decide (tentativeG < gOld)
  if keep then
    (openh ++ [(tentativeG + manhattan nb goal, nb)],
      (nb, cur) :: cameFrom, (nb, tentativeG) :: gScore)
  else st

/-- The A* `while open_heap` loop of `find_path`, with fuel. -/
def astarLoop (g : WalkGrid) (blocked : Int → Int → Bool) (goal : Pt) :
    Nat → List OpenItem → List (Pt × Pt) → List (Pt × Nat) → Option (List Pt)
  | 0, _, _, _ => none
  | fuel + 1, openh, cameFrom, gScore =>
      match popMin openh with
      | none => none
      | some ((_, cur), openh') =>
          if cur = goal then
            some (reconstruct cameFrom (fuel + 1) cur [cur])
          else
            let tentativeG :=
              (match (gScore.find? (fun e => e.1 = cur)).map (fun e => e.2) with
                | some gc => gc
                | none => 0) + 1
            let st := (getNeighbors g blocked cur).foldl
              (relaxNeighbor goal cur tentativeG) (openh', cameFrom, gScore)
            astarLoop g blocked goal fuel st.1 st.2.1 st.2.2

/-- Fuel bound used for the searches considered here. -/
def astarFuel : Nat := 512

/-- `find_path(start, goal, grid, world)`: A*, 4-way movement, Manhattan
heuristic; returns the path including both endpoints, `none` when
unreachable. -/
def findPath (g : WalkGrid) (blocked : Int → Int → Bool) (start goal : Pt) :
    Option (List Pt) :=
  astarLoop g blocked goal astarFuel [(0, start)] [] [(start, 0)]

/-! ## AI system (gameplay/ecs/systems/ai_system.py) -/

/-- `AISystem._process_wander_ai`: `draw` is the direction `rng.choice`
picked among the 8 surrounding offsets; attack when the chosen cell is the
player's tile, else request the move. -/
def processWanderAi (eid playerEid : Int) (monsterPos playerPos : Pt) (draw : Pt) :
    List GEvent :=
  let newPos : Pt := (monsterPos.1 + draw.1, monsterPos.2 + draw.2)
  if newPos = playerPos then [GEvent.attackRequested eid playerEid]
  else [GEvent.moveRequested eid newPos]

/-- `AISystem._move_toward_player_direct`: greedy single-step approach used
when pathfinding fails. -/
def moveTowardPlayerDirect (eid playerEid : Int) (monsterPos playerPos : Pt) :
    List GEvent :=
  let dx : Int := if playerPos.1 > monsterPos.1 then 1
    else if playerPos.1 < monsterPos.1 then -1 else 0
  let dy : Int := if playerPos.2 > monsterPos.2 then 1
    else if playerPos.2 < monsterPos.2 then -1 else 0
  let newPos : Pt := (monsterPos.1 + dx, monsterPos.2 + dy)
  if newPos = playerPos then [GEvent.attackRequested eid playerEid]
  else [GEvent.moveRequested eid newPos]

/-- `AISystem._process_chase_ai`: distance to the player is
`max(abs(dx), abs(dy))` (Chebyshev, as the source comments); attack when it
is exactly 1; within 5, follow A* toward the player (first step `path[1]`,
attacking instead when that step is the player's tile) or fall back to the
greedy step; beyond 5, wander. `wanderDraw` is the direction `rng.choice`
would pick in the wander fallback. -/
def processChaseAi (eid playerEid : Int) (monsterPos playerPos : Pt)
    (g : WalkGrid) (blocked : Int → Int → Bool) (wanderDraw : Pt) : List GEvent :=
  let dx := |monsterPos.1 - playerPos.1|
  let dy := |monsterPos.2 - playerPos.2|
  let dist := max dx dy
  if dist = 1 then [GEvent.attackRequested eid playerEid]
  else if dist ≤ 5 then
    match findPath g blocked monsterPos playerPos with
    | some path =>
        if 1 < path.length then
          let nextStep := path.getD 1 (0, 0)
          let stepDist := max |nextStep.1 - playerPos.1| |nextStep.2 - playerPos.2|
          if stepDist = 0 then [GEvent.attackRequested eid playerEid]
          else [GEvent.moveRequested eid nextStep]
        else moveTowardPlayerDirect eid playerEid monsterPos playerPos
    | none => moveTowardPlayerDirect eid playerEid monsterPos playerPos
  else processWanderAi eid playerEid monsterPos playerPos wanderDraw

/-! ## Field of vision (gameplay/dungeon/fov.py) -/

/-- A rectangular grid exposing the `.opaque` flag of each tile:
`solid x y` is `grid[y][x].opaque` for `0 ≤ x < W`, `0 ≤ y < H`. -/
structure FovGrid where
  W : Int
  H : Int
  solid : Int → Int → Bool

/-- The `in_bounds` helper of `compute_visible`. -/
def fovInB (g : FovGrid) (x y : Int) : Bool :=
  decide (0 ≤ x ∧ x < g.W ∧ 0 ≤ y ∧ y < g.H)

/-- The `opaque` helper of `compute_visible`: out of bounds counts as
blocking sight. -/
def solidAt (g : FovGrid) (x y : Int) : Bool :=
  ! fovInB g x y || g.solid x y

/-- The stepping loop body of `_bresenham`, with fuel: emit `(x, y)`, stop at
the endpoint, otherwise advance by the classic two-`if` error update. -/
def bresAux (x1 y1 sx sy dx dy : Int) :
    Nat → Int → Int → Int → List Pt
  | 0, _, _, _ => []
  | fuel + 1, x, y, err =>
      (x, y) ::
        (if x = x1 ∧ y = y1 then []
        else
          let e2 := 2 * err
          let x' := if e2 ≥ dy then x + sx else x
          let errx := if e2 ≥ dy then err + dy else err
          let y' := if e2 ≤ dx then y + sy else y
          let err' := if e2 ≤ dx then errx + dx else errx
          bresAux x1 y1 sx sy dx dy fuel x' y' err')

/-- `_bresenham(x0, y0, x1, y1)`: 8-connected integer line from `(x0, y0)`
to `(x1, y1)`, both endpoints included. The fuel `dx - dy + 1` covers every
iteration since each one advances `x` and/or `y` by one toward the target. -/
def bres (x0 y0 x1 y1 : Int) : List Pt :=
  let dx := |x1 - x0|
  let sx : Int := if x0 < x1 then 1 else -1
  let dy := -|y1 - y0|
  let sy : Int := if y0 < y1 then 1 else -1
  bresAux x1 y1 sx sy dx dy ((dx - dy).toNat + 1) x0 y0 (dx + dy)

/-- The per-ray marching loop of `compute_visible` over the Bresenham points:
skip the origin; stop on a strict diagonal-corner block (revealing the target
first when it is the final wall tile); reveal an opaque tile and stop; else
reveal the floor tile, remember it as `prev`, and keep marching. -/
def marchRay (g : FovGrid) (ox oy tx ty : Int) (targetWall : Bool) :
    List Pt → Pt → Finset Pt → Finset Pt
  | [], _, vis => vis
  | (x, y) :: rest, prev, vis =>
      if x = ox ∧ y = oy then marchRay g ox oy tx ty targetWall rest prev vis
      else if (x ≠ prev.1 ∧ y ≠ prev.2)
          ∧ (solidAt g prev.1 y ∨ solidAt g x prev.2) then
        (if (x = tx ∧ y = ty) ∧ targetWall then insert (x, y) vis else vis)
      else if g.solid x y then insert (x, y) vis
      else marchRay g ox oy tx ty targetWall rest (x, y) (insert (x, y) vis)

/-- Processing of one candidate target `(tx, ty)` in the first pass of
`compute_visible`: skip the origin, skip targets outside the Euclidean
clamp, apply the origin-adjacent diagonal-squeeze rule, and otherwise march
the Bresenham ray. -/
def processCandidate (g : FovGrid) (ox oy R2 : Int) (vis : Finset Pt)
    (tx ty : Int) : Finset Pt :=
  if tx = ox ∧ ty = oy then vis
  else if (tx - ox) * (tx - ox) + (ty - oy) * (ty - oy) > R2 then vis
  else if (tx - ox ≠ 0 ∧ ty - oy ≠ 0) ∧ ¬ g.solid tx ty = true
      ∧ (solidAt g (ox + (if tx - ox > 0 then 1 else -1)) oy
          ∨ solidAt g ox (oy + (if ty - oy > 0 then 1 else -1))) then
    vis
  else
    marchRay g ox oy tx ty (g.solid tx ty) (bres ox oy tx ty) (ox, oy) vis

/-- `n` consecutive integers starting at `a`. -/
def intRangeAux (a : Int) : Nat → List Int
  | 0 => []
  | n + 1 => a :: intRangeAux (a + 1) n

/-- `range`-style inclusive integer interval `[a, b]` as a list. -/
def intRange (a b : Int) : List Int :=
  intRangeAux a (b - a + 1).toNat

/-- The four orthogonal neighbors of a point, in the source's `ADJ4` order. -/
def adj4 (p : Pt) : List Pt :=
  [(p.1 + 1, p.2), (p.1 - 1, p.2), (p.1, p.2 + 1), (p.1, p.2 - 1)]

/-- The first pass of `compute_visible`: starting from the always-visible
origin, process every candidate of the radius-clamped bounding box in
row-major order. -/
def firstPass (g : FovGrid) (ox oy radius : Int) : Finset Pt :=
  (intRange (max 0 (oy - radius)) (min (g.H - 1) (oy + radius))).foldl
    (fun vis ty =>
      (intRange (max 0 (ox - radius)) (min (g.W - 1) (ox + radius))).foldl
        (fun vis' tx => processCandidate g ox oy (radius * radius) vis' tx ty)
        vis)
    ({(ox, oy)} : Finset Pt)

/-- The second pass of `compute_visible`: for every in-bounds non-opaque
tile of the visible set, also reveal its in-bounds opaque 4-neighbors. -/
def corridorReveal (g : FovGrid) (vis : Finset Pt) : Finset Pt :=
  vis ∪ (vis.filter (fun p => fovInB g p.1 p.2 ∧ ¬ g.solid p.1 p.2 = true)).biUnion
    (fun p => ((adj4 p).filter
      (fun q => fovInB g q.1 q.2 ∧ g.solid q.1 q.2)).toFinset)

/-- `compute_visible(grid, ox, oy, radius)`: empty on an out-of-bounds origin
or negative radius; otherwise the origin plus the first-pass ray casting over
the radius-clamped bounding box, followed by the unbounded corridor-wall
reveal pass. -/
def computeVisible (g : FovGrid) (ox oy radius : Int) : Finset Pt :=
  if ¬ fovInB g ox oy ∨ radius < 0 then ∅
  else corridorReveal g (firstPass g ox oy radius)

/-- `x` lies in the closed interval spanned by `a` and `b` (in either
order): the coordinate range a Bresenham ray between two points stays in. -/
def Between (a b x : Int) : Prop :=
  (a ≤ x ∧ x ≤ b) ∨ (b ≤ x ∧ x ≤ a)

/-- All in-grid points of a FOV grid, as a finite set. -/
def gridPoints (g : FovGrid) : Finset Pt :=
  ((intRange 0 (g.W - 1)).toFinset) ×ˢ ((intRange 0 (g.H - 1)).toFinset)

/-- The set the spec's no-walls FOV property promises: the in-grid points
within squared Euclidean distance `radius²` of the origin. -/
def discSet (g : FovGrid) (ox oy radius : Int) : Finset Pt :=
  (gridPoints g).filter (fun p =>
    (p.1 - ox) * (p.1 - ox) + (p.2 - oy) * (p.2 - oy) ≤ radius * radius)

/-- The claim's hypothesis: no opaque tile of the grid lies within Euclidean
distance `radius` of `(ox, oy)`. -/
def noSolidWithin (g : FovGrid) (ox oy radius : Int) : Prop :=
  ∀ p ∈ gridPoints g,
    (p.1 - ox) * (p.1 - ox) + (p.2 - oy) * (p.2 - oy) ≤ radius * radius →
    g.solid p.1 p.2 = false

/-- The strengthening the corridor-wall pass forces: no opaque tile of the
grid is 4-orthogonally adjacent to an in-grid point within distance
`radius` of the origin. -/
def noSolidAdjacent (g : FovGrid) (ox oy radius : Int) : Prop :=
  ∀ p ∈ gridPoints g,
    (p.1 - ox) * (p.1 - ox) + (p.2 - oy) * (p.2 - oy) ≤ radius * radius →
    ∀ q ∈ adj4 p, fovInB g q.1 q.2 = true → g.solid q.1 q.2 = false

instance (g : FovGrid) (ox oy radius : Int) : Decidable (noSolidWithin g ox oy radius) := by
  unfold noSolidWithin
  infer_instance

instance (g : FovGrid) (ox oy radius : Int) : Decidable (noSolidAdjacent g ox oy radius) := by
  unfold noSolidAdjacent
  infer_instance

/-! ## Concrete instances used by witnesses and counterexamples -/

/-- All-zero stats. -/
def statsZero : CStats := ⟨0, 0, 0, 0, 0, 0, 0⟩

/-- A target `CHealth` already at 0 hp and marked dead. -/
def deadHealth : CHealth := ⟨0, 10, true⟩

/-- A weapon whose dice expression is `1d8+3`. -/
def wpn1d8p3 : CWeapon := ⟨⟨some (1, 8), [3], []⟩, physicalType, 1, []⟩

/-- An open 5×5 walkable grid. -/
def og5 : WalkGrid := ⟨5, 5, fun _ _ => true⟩

/-- The path A* produces on the open 5×5 grid from `(0,0)` to `(4,4)`. -/
def c8Path : List Pt :=
  [(0, 0), (0, 1), (0, 2), (0, 3), (0, 4), (1, 4), (2, 4), (3, 4), (4, 4)]

/-- An open 1-wide, 4-tall corridor grid. -/
def col4 : WalkGrid := ⟨1, 4, fun _ _ => true⟩

/-- A 3×1 FOV grid whose only opaque tile is `(2,0)`. -/
def fovWallRow : FovGrid := ⟨3, 1, fun x y => x == 2 && y == 0⟩

/-- A 3×3 FOV grid with no opaque tiles. -/
def fovOpen3 : FovGrid := ⟨3, 3, fun _ _ => false⟩

/-- A concrete entity store over component-type key `Bool`: entity 1 is live
and carries a `true`-typed component of value 7; ids 2+ were never handed
out. -/
def wEx : World Bool Nat := ⟨2, {1}, fun t => if t then [(1, 7)] else []⟩

/-- A living occupant with id 3 used by the movement witness. -/
def entB : EntInfo := ⟨3, some ⟨5, 5, false⟩, none⟩

/-- The mover's position used by the movement witnesses. -/
def posA : CPosition := ⟨1, 1, 0⟩

/-- Two points are 4-adjacent: Manhattan distance exactly 1. -/
def stepAdj (a b : Pt) : Bool :=
  (a.1 - b.1).natAbs + (a.2 - b.2).natAbs == 1

/-- Every pair of consecutive points of the list is 4-adjacent. -/
def chainedSteps : List Pt → Bool
  | [] => true
  | [_] => true
  | a :: b :: rest => stepAdj a b && chainedSteps (b :: rest)

end RPG

namespace RPG

/-! # Theorems -/

/-! ## Helper lemmas -/

/-- A prefix of destination occupants in which every entry is the mover
itself, a dead-or-missing-health entity without a non-passable blocker, is
skipped by the occupant scan. -/
theorem occScan_append_skip (eid : Int) (pre rest : List EntInfo)
    (hpre : ∀ o ∈ pre, o.eid = eid ∨
      ((∀ h, o.health = some h → h.isDead = true) ∧
       (∀ b, o.blocker = some b → b.passable = true))) :
    occScan eid (pre ++ rest) = occScan eid rest := by
  induction pre with
  | nil => rfl
  | cons o pre ih =>
      have ho := hpre o (by simp)
      have htail : ∀ o' ∈ pre, o'.eid = eid ∨
          ((∀ h, o'.health = some h → h.isDead = true) ∧
           (∀ b, o'.blocker = some b → b.passable = true)) := by
        intro o' ho'
        exact hpre o' (by simp [ho'])
      rcases ho with hid | ⟨hh, hb⟩
      · simp [occScan, hid, ih htail]
      · by_cases hid : o.eid = eid
        · simp [occScan, hid, ih htail]
        · have hh' : (match o.health with
              | some h => !h.isDead
              | none => false) = false := by
            cases hhealth : o.health with
            | none => rfl
            | some h => simp [hh h hhealth]
          have hb' : (match o.blocker with
              | some b => !b.passable
              | none => false) = false := by
            cases hblocker : o.blocker with
            | none => rfl
            | some b => simp [hb b hblocker]
          simp [occScan, hid, hh', hb', ih htail]

/-! ## C5 — to-hit natural-roll rules -/

/-- C5: for every pair of attacker/defender stats, context and RNG draw,
`to_hit` with a natural roll of 1 returns `hit = false` and `crit = false`;
with a natural 20 it returns `hit = true` regardless of any stat gap; and
for every other roll it hits exactly when
`roll + accuracy + weaponBonus ≥ 10 + evasion + cover`. -/
theorem c5_to_hit_natural_rolls (a d : CStats) (wb cov roll : Int) (cd : Bool) :
    ((toHit a d wb cov 1 cd).hit = false ∧ (toHit a d wb cov 1 cd).crit = false)
    ∧ (toHit a d wb cov 20 cd).hit = true
    ∧ (2 ≤ roll → roll ≤ 19 →
        ((toHit a d wb cov roll cd).hit = true ↔
          roll + a.accuracy + wb ≥ 10 + d.evasion + cov)) := by
  refine ⟨⟨rfl, rfl⟩, rfl, ?_⟩
  intro h2 h19
  have h1 : ¬ roll = 1 := by omega
  have h20 : ¬ roll = 20 := by omega
  simp only [toHit, if_neg h1, if_neg h20, decide_eq_true_eq]
  omega

/-- Witness for C5 at a concrete middle roll. -/
theorem c5_witness :
    (2 ≤ (10 : Int)) ∧ ((10 : Int) ≤ 19) ∧
    ((toHit statsZero statsZero 0 0 10 false).hit = true ↔
      (10 : Int) + statsZero.accuracy + 0 ≥ 10 + statsZero.evasion + 0) :=
  ⟨by norm_num, by norm_num,
    (c5_to_hit_natural_rolls statsZero statsZero 0 0 10 false).2.2
      (by norm_num) (by norm_num)⟩

/-! ## C6 — crit doubles the dice component only -/

/-- C6: for every weapon, attacker stats, armor and RNG stream,
`apply_melee_ranged` with `is_crit = true` reports an adjusted base damage
(`original_damage`) of `2 × dice sum + modifier sum` — doubling the dice
component only, never the modifiers — and on the concrete breakdown
dice = 4, mod = 3 (weapon `1d8+3`, die result 4) the adjusted base is 11,
not 14. -/
theorem c6_crit_doubles_dice_only (st : CStats) (w : CWeapon)
    (ar : Option CArmor) (draws : Nat → Int) :
    ((applyMeleeRanged st w ar true draws).originalDamage
      = 2 * (diceRoll draws 0 w.damageDice (attrsOf st)).bd.diceTotal
        + (diceRoll draws 0 w.damageDice (attrsOf st)).bd.modTotal)
    ∧ (applyMeleeRanged statsZero wpn1d8p3 none true (fun _ => 4)).originalDamage
        = 11 := by
  constructor
  · cases ar with
    | none => simp [applyMeleeRanged]; ring
    | some armor => by_cases hw : w.damageType = physicalType <;>
        simp [applyMeleeRanged, hw] <;> ring
  · decide

/-! ## C1 — a second attack on a dead target re-posts EntityDied -/

/-- C1 (code bug): processing an `AttackRequested` whose target already has
`hp = 0` and `is_dead = true` posts `EntityDied(target, attacker)` again,
even on a missed attack (here a natural roll of 5 by a zero-stat attacker):
`_handle_attack` tests `hp <= 0` with no already-dead guard. -/
theorem c1_second_death_repost :
    handleAttack 1 2 (some statsZero) (some deadHealth) (some statsZero)
      none none 5 false (fun _ => 1)
    = (some ⟨0, 10, true⟩, [GEvent.entityDied 2 1]) := by
  decide

/-! ## C10 — compute_visible is empty on degenerate inputs -/

/-- C10: for every grid, an out-of-bounds origin or a negative radius makes
`compute_visible` return the empty set (in particular the origin itself is
not reported visible), and no exception is involved — the embedding is a
total function. -/
theorem c10_degenerate_inputs_empty (g : FovGrid) (ox oy radius : Int)
    (h : fovInB g ox oy = false ∨ radius < 0) :
    computeVisible g ox oy radius = ∅ := by
  have hc : ¬ fovInB g ox oy = true ∨ radius < 0 := by
    rcases h with h | h
    · exact Or.inl (by simp [h])
    · exact Or.inr h
  unfold computeVisible
  rw [if_pos hc]

/-- Witness for C10: origin `(5,0)` is outside the 3×1 grid, and the result
is empty. -/
theorem c10_witness :
    fovInB fovWallRow 5 0 = false ∧ computeVisible fovWallRow 5 0 1 = ∅ :=
  ⟨by decide, c10_degenerate_inputs_empty fovWallRow 5 0 1 (Or.inl (by decide))⟩

/-! ## C7 — engagement lock -/

/-- C7: while an engagement contains entity `e` (it is in the participant
set), a `MoveRequested` by `e` to a destination at Chebyshev distance
greater than 1 from its current position is rejected: `can_move_freely`
returns false, the position is unchanged, and only a `Message` is posted;
a move to Chebyshev distance at most 1 is permitted by the lock. -/
theorem c7_engagement_lock (parts : Finset Int) (eid : Int)
    (hmem : eid ∈ parts) (toP : Pt) (pos : CPosition)
    (grid : Option WalkGrid) (occ : List EntInfo) (pe : Option Int)
    (pp : Option CPosition) :
    (1 < max |toP.1 - pos.x| |toP.2 - pos.y| →
      canMoveFreely parts eid (pos.x, pos.y) toP = false ∧
      handleMoveRequest eid toP (some pos) (some parts) grid occ pe pp
        = (some pos, [GEvent.message fleeMsg]))
    ∧ (max |toP.1 - pos.x| |toP.2 - pos.y| ≤ 1 →
      canMoveFreely parts eid (pos.x, pos.y) toP = true) := by
  constructor
  · intro hgt
    have hfree : canMoveFreely parts eid (pos.x, pos.y) toP = false := by
      simp only [canMoveFreely, if_neg (not_not_intro hmem), decide_eq_false_iff_not]
      rw [Int.abs_eq_natAbs, Int.abs_eq_natAbs] at hgt ⊢
      omega
    refine ⟨hfree, ?_⟩
    simp only [handleMoveRequest, lockBlocks, hfree, Bool.not_false, if_pos]
  · intro hle
    simp only [canMoveFreely, if_neg (not_not_intro hmem), decide_eq_true_eq]
    rw [Int.abs_eq_natAbs, Int.abs_eq_natAbs] at hle ⊢
    omega

/-- Witness for C7: entity 7 is engaged and tries to move from `(1,1)` to
`(3,1)`, Chebyshev distance 2. -/
theorem c7_witness :
    (1 < max |(3 : Int) - posA.x| |(1 : Int) - posA.y|) ∧
    (canMoveFreely {7} 7 (posA.x, posA.y) (3, 1) = false ∧
      handleMoveRequest 7 (3, 1) (some posA) (some {7}) (some og5) [] none none
        = (some posA, [GEvent.message fleeMsg])) :=
  ⟨by decide,
    (c7_engagement_lock {7} 7 (by decide) (3, 1) posA (some og5) [] none none).1
      (by decide)⟩

/-! ## C4 — moving onto a living entity becomes an attack -/

/-- C4: when the movement system processes `MoveRequested` for entity `A`
whose destination is in bounds, walkable and not lock-forbidden, and the
occupant scan at the destination reaches an entity `B` with a live `CHealth`
(every earlier occupant being the mover itself or one that neither fights
nor blocks), it posts exactly one `AttackRequested(A, B)` together with a
`Bump`, posts no `MoveResolved`, and `A`'s position is unchanged. -/
theorem c4_move_onto_living_entity (eid : Int) (pos : CPosition) (toXY : Pt)
    (css : Option (Finset Int)) (g : WalkGrid) (pre post : List EntInfo)
    (b : EntInfo) (bh : CHealth) (pe : Option Int) (pp : Option CPosition)
    (hlock : ∀ parts, css = some parts →
      canMoveFreely parts eid (pos.x, pos.y) toXY = true)
    (hin : 0 ≤ toXY.1 ∧ toXY.1 < g.W ∧ 0 ≤ toXY.2 ∧ toXY.2 < g.H)
    (hwalk : g.walkable toXY.1 toXY.2 = true)
    (hbne : b.eid ≠ eid) (hbh : b.health = some bh) (halive : bh.isDead = false)
    (hpre : ∀ o ∈ pre, o.eid = eid ∨
      ((∀ h, o.health = some h → h.isDead = true) ∧
       (∀ bl, o.blocker = some bl → bl.passable = true))) :
    handleMoveRequest eid toXY (some pos) css (some g) (pre ++ b :: post) pe pp
      = (some pos, [GEvent.bump eid b.eid, GEvent.attackRequested eid b.eid]) := by
  have hscan : occScan eid (pre ++ b :: post) = OccCheck.combat b.eid := by
    rw [occScan_append_skip eid pre _ hpre]
    simp [occScan, hbne, hbh, halive]
  have hlock' : lockBlocks css eid (pos.x, pos.y) toXY = false := by
    unfold lockBlocks
    cases hcss : css with
    | none => rfl
    | some parts => simp [hlock parts hcss]
  simp only [handleMoveRequest, hlock', Bool.false_eq_true, if_false, hscan,
    if_neg (not_not_intro hin), hwalk, not_true, Bool.not_eq_true, if_neg,
    Bool.true_eq_false, not_false_eq_true]

/-- Witness for C4: entity 7 at `(1,1)` moves onto `(1,2)`, occupied by the
living entity 3. -/
theorem c4_witness :
    entB.health = some ⟨5, 5, false⟩ ∧
    handleMoveRequest 7 (1, 2) (some posA) none (some og5) [entB] none none
      = (some posA, [GEvent.bump 7 3, GEvent.attackRequested 7 3]) :=
  ⟨by decide,
    c4_move_onto_living_entity 7 posA (1, 2) none og5 [] [] entB ⟨5, 5, false⟩
      none none (fun _ h => nomatch h) (by decide) (by decide) (by decide)
      (by decide) (by decide) (by simp)⟩

/-! ## C9 — destroyed and unknown ids read as absent -/

/-- C9: after `destroy(id)` on a live id, `get(id, T)` is `none` for every
component type, `has(id, T, ...)` is false, and `entities_with` never yields
the id; and on an id never allocated (in a store whose contents were all
produced through `create`), `get` and `has` also report absent rather than
raising — the embedding is total. -/
theorem c9_destroyed_and_unknown_absent {κ V : Type} [DecidableEq κ]
    (w : World κ V) (eid fid : Int) (halloc : w.Allocated)
    (hlive : eid ∈ w.entities) (hfresh : w.nextId ≤ fid) :
    (∀ t, (w.destroy eid).get eid t = none)
    ∧ (∀ t ts, (w.destroy eid).hasAll eid (t :: ts) = false)
    ∧ (∀ ts, eid ∉ (w.destroy eid).entitiesWith ts)
    ∧ (∀ t, w.get fid t = none)
    ∧ (∀ t ts, w.hasAll fid (t :: ts) = false)
    ∧ (∀ ts, fid ∉ w.entitiesWith ts) := by
  have hdestroy : w.destroy eid =
      ⟨w.nextId, w.entities.erase eid,
        fun t => (w.comps t).filter (fun e => ¬ e.1 = eid)⟩ := by
    unfold World.destroy
    rw [if_pos hlive]
  have hget : ∀ t, (w.destroy eid).get eid t = none := by
    intro t
    rw [hdestroy]
    unfold World.get dictGet
    rw [List.find?_eq_none.2]
    intro e he
    have := (List.mem_filter.1 he).2
    simpa using this
  have hgetFresh : ∀ t, w.get fid t = none := by
    intro t
    cases hg : w.get fid t with
    | none => rfl
    | some v =>
        have : fid < w.nextId := halloc.2 t fid (by simp [hg])
        omega
  refine ⟨hget, ?_, ?_, hgetFresh, ?_, ?_⟩
  · intro t ts
    unfold World.hasAll
    simp [hget t]
  · intro ts
    rw [hdestroy]
    cases ts with
    | nil =>
        unfold World.entitiesWith
        exact Finset.not_mem_erase eid w.entities
    | cons t rest =>
        unfold World.entitiesWith
        intro hmem
        exact Finset.not_mem_erase eid w.entities (Finset.mem_inter.1 hmem).2
  · intro t ts
    unfold World.hasAll
    simp [hgetFresh t]
  · intro ts
    have hout : fid ∉ w.entities := by
      intro hmem
      have := halloc.1 fid hmem
      omega
    cases ts with
    | nil => exact hout
    | cons t rest =>
        unfold World.entitiesWith
        intro hmem
        exact hout (Finset.mem_inter.1 hmem).2

/-- Witness for C9 on the concrete store `wEx`: id 1 is live and carries a
component; after destroy every lookup on it is absent, and id 5 (never
allocated) reads as absent. -/
theorem c9_witness :
    (1 ∈ wEx.entities) ∧ wEx.get 1 true = some 7
    ∧ (wEx.destroy 1).get 1 true = none
    ∧ (wEx.destroy 1).hasAll 1 [true] = false
    ∧ (1 ∉ (wEx.destroy 1).entitiesWith [true])
    ∧ wEx.get 5 true = none := by
  have halloc : wEx.Allocated := by
    constructor
    · intro i hi
      have h1 : i = 1 := by simpa [wEx] using hi
      rw [h1]
      decide
    · intro t i h
      cases t with
      | false => simp [World.get, dictGet, wEx] at h
      | true =>
          by_cases h1 : (1 : Int) = i
          · rw [← h1]
            decide
          · exfalso
            simp [World.get, dictGet, wEx, List.find?, h1] at h
  have main := c9_destroyed_and_unknown_absent wEx 1 5 halloc (by decide) (by decide)
  exact ⟨by decide, by decide, main.1 true, main.2.1 true [], main.2.2.1 [true],
    main.2.2.2.1 true⟩

/-! ## C8 — A* on the open 5×5 grid -/

/-- C8: on the open 5×5 grid with no entity blocking, `find_path` from
`(0,0)` to `(4,4)` returns exactly 9 points, starting at `(0,0)`, ending at
`(4,4)`, with consecutive points 4-adjacent — a path of Manhattan length 8. -/
theorem c8_open_grid_path :
    findPath og5 (fun _ _ => false) (0, 0) (4, 4) = some c8Path
    ∧ c8Path.length = 9
    ∧ c8Path.head? = some (0, 0)
    ∧ c8Path.getLast? = some (4, 4)
    ∧ chainedSteps c8Path = true := by
  refine ⟨by decide, by decide, by decide, by decide, by decide⟩

/-! ## C2 — chase AI distance metric -/

/-- C2 counterexample: a monster at `(0,0)` with the player at `(1,1)` is at
Manhattan distance 2 (not 1), yet the chase AI posts `AttackRequested`
directly and posts no `MoveRequested` toward the player: the source measures
`max(abs dx, abs dy)` — Chebyshev distance — which here is 1. -/
theorem c2_cex_manhattan :
    processChaseAi 7 0 (0, 0) (1, 1) og5 (fun _ _ => false) (1, 0)
      = [GEvent.attackRequested 7 0]
    ∧ ((0 : Int) - 1).natAbs + ((0 : Int) - 1).natAbs = 2 := by
  exact ⟨by decide, by decide⟩

/-- C2 amended: the chase AI measures distance to the player as Chebyshev
distance; at distance exactly 1 it posts `AttackRequested` directly; at
distance ≠ 1 within chase range 5, when pathfinding yields a path of at
least two points, it posts `MoveRequested` to the first step — or
`AttackRequested` instead when that step is the player's tile; beyond range
5 it behaves exactly as the wander AI. -/
theorem c2_chase_is_chebyshev (eid pid : Int) (mpos ppos : Pt) (g : WalkGrid)
    (blocked : Int → Int → Bool) (draw : Pt) :
    (max |mpos.1 - ppos.1| |mpos.2 - ppos.2| = 1 →
      processChaseAi eid pid mpos ppos g blocked draw
        = [GEvent.attackRequested eid pid])
    ∧ (∀ path, max |mpos.1 - ppos.1| |mpos.2 - ppos.2| ≠ 1 →
        max |mpos.1 - ppos.1| |mpos.2 - ppos.2| ≤ 5 →
        findPath g blocked mpos ppos = some path → 1 < path.length →
        ((path.getD 1 (0, 0) ≠ ppos →
            processChaseAi eid pid mpos ppos g blocked draw
              = [GEvent.moveRequested eid (path.getD 1 (0, 0))])
          ∧ (path.getD 1 (0, 0) = ppos →
            processChaseAi eid pid mpos ppos g blocked draw
              = [GEvent.attackRequested eid pid])))
    ∧ (5 < max |mpos.1 - ppos.1| |mpos.2 - ppos.2| →
      processChaseAi eid pid mpos ppos g blocked draw
        = processWanderAi eid pid mpos ppos draw) := by
  refine ⟨?_, ?_, ?_⟩
  · intro h1
    simp only [processChaseAi, if_pos h1]
  · intro path hne hle hfp hlen
    constructor
    · intro hstep
      have hdist : ¬ max |(path.getD 1 (0, 0)).1 - ppos.1|
          |(path.getD 1 (0, 0)).2 - ppos.2| = 0 := by
        intro h0
        apply hstep
        have hx : |(path.getD 1 (0, 0)).1 - ppos.1| = 0 ∧
            |(path.getD 1 (0, 0)).2 - ppos.2| = 0 := by
          constructor <;>
            [have := le_max_left |(path.getD 1 (0, 0)).1 - ppos.1|
              |(path.getD 1 (0, 0)).2 - ppos.2|;
             have := le_max_right |(path.getD 1 (0, 0)).1 - ppos.1|
              |(path.getD 1 (0, 0)).2 - ppos.2|] <;>
          · have habs := abs_nonneg ((path.getD 1 (0, 0)).1 - ppos.1)
            have habs2 := abs_nonneg ((path.getD 1 (0, 0)).2 - ppos.2)
            omega
        have hx1 : (path.getD 1 (0, 0)).1 = ppos.1 := by
          have := abs_eq_zero.1 hx.1; omega
        have hx2 : (path.getD 1 (0, 0)).2 = ppos.2 := by
          have := abs_eq_zero.1 hx.2; omega
        exact Prod.ext hx1 hx2
      simp only [processChaseAi, if_neg hne, if_pos hle, hfp, if_pos hlen,
        if_neg hdist]
    · intro hstep
      have hdist : max |(path.getD 1 (0, 0)).1 - ppos.1|
          |(path.getD 1 (0, 0)).2 - ppos.2| = 0 := by
        rw [hstep]
        simp
      simp only [processChaseAi, if_neg hne, if_pos hle, hfp, if_pos hlen,
        if_pos hdist]
  · intro h5
    have hne : ¬ max |mpos.1 - ppos.1| |mpos.2 - ppos.2| = 1 := by omega
    have hnle : ¬ max |mpos.1 - ppos.1| |mpos.2 - ppos.2| ≤ 5 := by omega
    simp only [processChaseAi, if_neg hne, if_neg hnle]

/-- Witness for the amended C2: a monster at `(0,0)` chasing the player at
`(0,3)` down the open 1×4 corridor moves to `(0,1)`, the first A* step. -/
theorem c2_witness :
    (max |(0 : Int) - 0| |(0 : Int) - 3| ≠ 1)
    ∧ (max |(0 : Int) - 0| |(0 : Int) - 3| ≤ 5)
    ∧ findPath col4 (fun _ _ => false) (0, 0) (0, 3)
        = some [(0, 0), (0, 1), (0, 2), (0, 3)]
    ∧ processChaseAi 7 0 (0, 0) (0, 3) col4 (fun _ _ => false) (1, 1)
        = [GEvent.moveRequested 7 (0, 1)] :=
  ⟨by decide, by decide, by decide,
    ((c2_chase_is_chebyshev 7 0 (0, 0) (0, 3) col4 (fun _ _ => false)
        (1, 1)).2.1 [(0, 0), (0, 1), (0, 2), (0, 3)] (by decide) (by decide)
        (by decide) (by decide)).1 (by decide)⟩

/-! ## FOV helper lemmas

The Bresenham loop invariant: writing `u` and `v` for the number of x- and
y-steps already taken, the position is `(x0 + sx*u, y0 + sy*v)` and the
error term is `dx*(v+1) + dy*(u+1)`. From it: the stepping never overshoots
either axis, always progresses, ends exactly at the target, and every
emitted point stays in the coordinate box spanned by the endpoints. -/

theorem bresAux_spec (x0 y0 x1 y1 sx sy dx dy : Int)
    (hsx : sx = if x0 < x1 then 1 else -1)
    (hsy : sy = if y0 < y1 then 1 else -1)
    (hdx : dx = |x1 - x0|)
    (hdy : dy = -|y1 - y0|) :
    ∀ (fuel : Nat) (u v : Int), 0 ≤ u → u ≤ dx → 0 ≤ v → v ≤ -dy →
      dx - u + (-dy - v) < (fuel : Int) →
      ((x1, y1) ∈ bresAux x1 y1 sx sy dx dy fuel (x0 + sx * u) (y0 + sy * v)
          (dx * (v + 1) + dy * (u + 1))
      ∧ ∀ p ∈ bresAux x1 y1 sx sy dx dy fuel (x0 + sx * u) (y0 + sy * v)
          (dx * (v + 1) + dy * (u + 1)),
          ∃ u' v', 0 ≤ u' ∧ u' ≤ dx ∧ 0 ≤ v' ∧ v' ≤ -dy
            ∧ p = (x0 + sx * u', y0 + sy * v')) := by
  have hdx0 : 0 ≤ dx := by
    rw [hdx]; exact abs_nonneg _
  have hdy0 : dy ≤ 0 := by
    rw [hdy]
    have := abs_nonneg (y1 - y0)
    omega
  have hsx1 : sx = 1 ∨ sx = -1 := by
    rw [hsx]; split_ifs <;> simp
  have hsy1 : sy = 1 ∨ sy = -1 := by
    rw [hsy]; split_ifs <;> simp
  have hx1 : x0 + sx * dx = x1 := by
    rw [hsx, hdx]
    by_cases h : x0 < x1
    · rw [if_pos h, abs_of_nonneg (by omega : (0 : Int) ≤ x1 - x0)]; ring
    · rw [if_neg h, abs_of_nonpos (by omega : x1 - x0 ≤ 0)]; ring
  have hy1 : y0 + sy * (-dy) = y1 := by
    rw [hsy, hdy, neg_neg]
    by_cases h : y0 < y1
    · rw [if_pos h, abs_of_nonneg (by omega : (0 : Int) ≤ y1 - y0)]; ring
    · rw [if_neg h, abs_of_nonpos (by omega : y1 - y0 ≤ 0)]; ring
  have hxinj : ∀ w : Int, x0 + sx * w = x1 ↔ w = dx := by
    intro w
    rw [← hx1]
    rcases hsx1 with h | h <;> rw [h] <;> constructor <;> intro <;> omega
  have hyinj : ∀ w : Int, y0 + sy * w = y1 ↔ w = -dy := by
    intro w
    rw [← hy1]
    rcases hsy1 with h | h <;> rw [h] <;> constructor <;> intro <;> omega
  intro fuel
  induction fuel with
  | zero =>
      intro u v h0u hudx h0v hvdy hb
      exact absurd hb (by push_cast; omega)
  | succ n ih =>
      intro u v h0u hudx h0v hvdy hb
      by_cases hend : x0 + sx * u = x1 ∧ y0 + sy * v = y1
      · constructor
        · simp only [bresAux, if_pos hend]
          simp [hend.1, hend.2]
        · intro p hp
          simp only [bresAux, if_pos hend, List.mem_singleton] at hp
          exact ⟨u, v, h0u, hudx, h0v, hvdy, hp⟩
      · have hnotboth : ¬ (u = dx ∧ v = -dy) := by
          intro h
          exact hend ⟨(hxinj u).2 h.1, (hyinj v).2 h.2⟩
        have hxstep : 2 * (dx * (v + 1) + dy * (u + 1)) ≥ dy → u < dx := by
          intro hc1
          rcases lt_or_eq_of_le hudx with h | h
          · exact h
          · exfalso
            have hvlt : v < -dy := lt_of_le_of_ne hvdy (fun hv => hnotboth ⟨h, hv⟩)
            have hmul : 2 * dx * (v + 1) ≤ 2 * dx * (-dy) :=
              mul_le_mul_of_nonneg_left (by omega) (by omega)
            rw [h] at hc1
            nlinarith
        have hystep : 2 * (dx * (v + 1) + dy * (u + 1)) ≤ dx → v < -dy := by
          intro hc2
          rcases lt_or_eq_of_le hvdy with h | h
          · exact h
          · exfalso
            have hult : u < dx := lt_of_le_of_ne hudx (fun hu => hnotboth ⟨hu, h⟩)
            have hmul : 2 * (-dy) * (u + 1) ≤ 2 * (-dy) * dx :=
              mul_le_mul_of_nonneg_left (by omega) (by omega)
            rw [h] at hc2
            nlinarith
        have hprog : 2 * (dx * (v + 1) + dy * (u + 1)) ≥ dy
            ∨ 2 * (dx * (v + 1) + dy * (u + 1)) ≤ dx := by
          by_contra hc
          push_neg at hc
          rcases hc with ⟨hc1, hc2⟩
          omega
        by_cases hc1 : 2 * (dx * (v + 1) + dy * (u + 1)) ≥ dy <;>
          by_cases hc2 : 2 * (dx * (v + 1) + dy * (u + 1)) ≤ dx
        · -- both axes step
          have hux : u + 1 ≤ dx := hxstep hc1
          have hvy : v + 1 ≤ -dy := hystep hc2
          have harx : x0 + sx * u + sx = x0 + sx * (u + 1) := by ring
          have hary : y0 + sy * v + sy = y0 + sy * (v + 1) := by ring
          have hare : dx * (v + 1) + dy * (u + 1) + dy + dx
              = dx * (v + 1 + 1) + dy * (u + 1 + 1) := by ring
          have hrec := ih (u + 1) (v + 1) (by omega) hux (by omega) hvy
            (by push_cast at hb ⊢; omega)
          simp only [bresAux, if_neg hend, if_pos hc1, if_pos hc2,
            harx, hary, hare]
          constructor
          · exact List.mem_cons.2 (Or.inr hrec.1)
          · intro p hp
            rcases List.mem_cons.1 hp with rfl | hp'
            · exact ⟨u, v, h0u, hudx, h0v, hvdy, rfl⟩
            · exact hrec.2 p hp'
        · -- only x steps
          have hux : u + 1 ≤ dx := hxstep hc1
          have harx : x0 + sx * u + sx = x0 + sx * (u + 1) := by ring
          have hare : dx * (v + 1) + dy * (u + 1) + dy
              = dx * (v + 1) + dy * (u + 1 + 1) := by ring
          have hrec := ih (u + 1) v (by omega) hux h0v hvdy
            (by push_cast at hb ⊢; omega)
          simp only [bresAux, if_neg hend, if_pos hc1, if_neg hc2,
            harx, hare]
          constructor
          · exact List.mem_cons.2 (Or.inr hrec.1)
          · intro p hp
            rcases List.mem_cons.1 hp with rfl | hp'
            · exact ⟨u, v, h0u, hudx, h0v, hvdy, rfl⟩
            · exact hrec.2 p hp'
        · -- only y steps
          have hvy : v + 1 ≤ -dy := hystep hc2
          have hary : y0 + sy * v + sy = y0 + sy * (v + 1) := by ring
          have hare : dx * (v + 1) + dy * (u + 1) + dx
              = dx * (v + 1 + 1) + dy * (u + 1) := by ring
          have hrec := ih u (v + 1) h0u hudx (by omega) hvy
            (by push_cast at hb ⊢; omega)
          simp only [bresAux, if_neg hend, if_neg hc1, if_pos hc2,
            hary, hare]
          constructor
          · exact List.mem_cons.2 (Or.inr hrec.1)
          · intro p hp
            rcases List.mem_cons.1 hp with rfl | hp'
            · exact ⟨u, v, h0u, hudx, h0v, hvdy, rfl⟩
            · exact hrec.2 p hp'
        · exact absurd hprog (by tauto)

/-- The Bresenham line contains its target and stays inside the coordinate
box spanned by its two endpoints. -/
theorem bres_spec (x0 y0 x1 y1 : Int) :
    (x1, y1) ∈ bres x0 y0 x1 y1
    ∧ ∀ p ∈ bres x0 y0 x1 y1, Between x0 x1 p.1 ∧ Between y0 y1 p.2 := by
  have habx := abs_nonneg (x1 - x0)
  have haby := abs_nonneg (y1 - y0)
  have hfuel : |x1 - x0| - 0 + (-(-|y1 - y0|) - 0)
      < (((|x1 - x0| - -|y1 - y0|).toNat + 1 : Nat) : Int) := by
    push_cast
    rw [Int.toNat_of_nonneg (by omega)]
    omega
  have h := bresAux_spec x0 y0 x1 y1 _ _ _ _ rfl rfl rfl rfl
    ((|x1 - x0| - -|y1 - y0|).toNat + 1) 0 0 le_rfl habx le_rfl (by omega) hfuel
  simp only [mul_zero, add_zero, zero_add, mul_one] at h
  have hbres : bres x0 y0 x1 y1
      = bresAux x1 y1 (if x0 < x1 then 1 else -1) (if y0 < y1 then 1 else -1)
          |x1 - x0| (-|y1 - y0|) ((|x1 - x0| - -|y1 - y0|).toNat + 1) x0 y0
          (|x1 - x0| + -|y1 - y0|) := rfl
  rw [hbres]
  refine ⟨h.1, ?_⟩
  intro p hp
  obtain ⟨u', v', h0u, hudx, h0v, hvdy, rfl⟩ := h.2 p hp
  constructor
  · show Between x0 x1 (x0 + (if x0 < x1 then 1 else -1) * u')
    by_cases hx : x0 < x1
    · have habs : |x1 - x0| = x1 - x0 := abs_of_nonneg (by omega)
      rw [habs] at hudx
      rw [if_pos hx]
      exact Or.inl ⟨by omega, by omega⟩
    · have habs : |x1 - x0| = -(x1 - x0) := abs_of_nonpos (by omega)
      rw [habs] at hudx
      rw [if_neg hx]
      exact Or.inr ⟨by omega, by omega⟩
  · show Between y0 y1 (y0 + (if y0 < y1 then 1 else -1) * v')
    by_cases hy : y0 < y1
    · have habs : |y1 - y0| = y1 - y0 := abs_of_nonneg (by omega)
      rw [habs] at hvdy
      rw [if_pos hy]
      exact Or.inl ⟨by omega, by omega⟩
    · have habs : |y1 - y0| = -(y1 - y0) := abs_of_nonpos (by omega)
      rw [habs] at hvdy
      rw [if_neg hy]
      exact Or.inr ⟨by omega, by omega⟩

/-- Marching a ray only ever inserts points. -/
theorem marchRay_supset (g : FovGrid) (ox oy tx ty : Int) (tw : Bool) :
    ∀ (l : List Pt) (prev : Pt) (vis : Finset Pt),
      vis ⊆ marchRay g ox oy tx ty tw l prev vis := by
  intro l
  induction l with
  | nil => intro prev vis; simp [marchRay]
  | cons hd rest ih =>
      intro prev vis
      obtain ⟨x, y⟩ := hd
      simp only [marchRay]
      split_ifs
      · exact ih prev vis
      · exact Finset.subset_insert _ _
      · exact Finset.Subset.refl _
      · exact Finset.subset_insert _ _
      · exact (Finset.subset_insert _ _).trans (ih (x, y) (insert (x, y) vis))

/-- Every point a ray march inserts comes from the marched list. -/
theorem marchRay_subset (g : FovGrid) (ox oy tx ty : Int) (tw : Bool) :
    ∀ (l : List Pt) (prev : Pt) (vis : Finset Pt),
      marchRay g ox oy tx ty tw l prev vis ⊆ vis ∪ l.toFinset := by
  intro l
  induction l with
  | nil => intro prev vis; simp [marchRay]
  | cons hd rest ih =>
      intro prev vis
      obtain ⟨x, y⟩ := hd
      simp only [marchRay]
      split_ifs with h1 h2 h3 h4
      · exact (ih prev vis).trans (by
          intro q hq
          simp only [Finset.mem_union, List.toFinset_cons, Finset.mem_insert] at hq ⊢
          tauto)
      · intro q hq
        simp only [Finset.mem_insert] at hq
        simp only [Finset.mem_union, List.toFinset_cons, Finset.mem_insert]
        tauto
      · intro q hq
        simp only [Finset.mem_union]
        tauto
      · intro q hq
        simp only [Finset.mem_insert] at hq
        simp only [Finset.mem_union, List.toFinset_cons, Finset.mem_insert]
        tauto
      · refine (ih (x, y) (insert (x, y) vis)).trans ?_
        intro q hq
        simp only [Finset.mem_union, Finset.mem_insert, List.toFinset_cons] at hq ⊢
        tauto

/-- With nothing blocking anywhere in the coordinate box of the ray, the
march adds exactly the non-origin points of the marched list. -/
theorem marchRay_clean (g : FovGrid) (ox oy tx ty : Int)
    (hclear : ∀ x y, Between ox tx x → Between oy ty y → solidAt g x y = false) :
    ∀ (l : List Pt) (prev : Pt) (vis : Finset Pt),
      (∀ p ∈ l, Between ox tx p.1 ∧ Between oy ty p.2) →
      Between ox tx prev.1 → Between oy ty prev.2 →
      marchRay g ox oy tx ty false l prev vis
        = vis ∪ l.toFinset.filter (fun p => p ≠ (ox, oy)) := by
  intro l
  induction l with
  | nil =>
      intro prev vis _ _ _
      simp [marchRay]
  | cons hd rest ih =>
      intro prev vis hl hpx hpy
      obtain ⟨x, y⟩ := hd
      have hhd := hl (x, y) (by simp)
      have hsolid0 := hclear x y hhd.1 hhd.2
      have hin : fovInB g x y = true ∧ g.solid x y = false := by
        simpa [solidAt] using hsolid0
      have hcornA : solidAt g prev.1 y = false := hclear prev.1 y hpx hhd.2
      have hcornB : solidAt g x prev.2 = false := hclear x prev.2 hhd.1 hpy
      have hrest : ∀ p ∈ rest, Between ox tx p.1 ∧ Between oy ty p.2 :=
        fun p hp => hl p (by simp [hp])
      by_cases h0 : x = ox ∧ y = oy
      · have hpt : ((x, y) : Pt) = (ox, oy) := by rw [h0.1, h0.2]
        simp only [marchRay, if_pos h0]
        rw [ih prev vis hrest hpx hpy]
        congr 1
        rw [List.toFinset_cons, Finset.filter_insert, if_neg (by simp [hpt])]
      · have hpt : ((x, y) : Pt) ≠ (ox, oy) := by
          intro h
          exact h0 ⟨congrArg Prod.fst h, congrArg Prod.snd h⟩
        have hcorner : ¬ ((x ≠ prev.1 ∧ y ≠ prev.2)
            ∧ (solidAt g prev.1 y = true ∨ solidAt g x prev.2 = true)) := by
          simp [hcornA, hcornB]
        simp only [marchRay, if_neg h0, if_neg hcorner, hin.2,
          Bool.false_eq_true, if_false]
        rw [ih (x, y) (insert (x, y) vis) hrest hhd.1 hhd.2]
        rw [List.toFinset_cons, Finset.filter_insert, if_pos hpt]
        ext q
        simp only [Finset.mem_union, Finset.mem_insert]
        tauto

/-- Folding a step that only grows the accumulator only grows it. -/
theorem foldl_vis_supset {α : Type} (f : Finset Pt → α → Finset Pt)
    (hmono : ∀ s a, s ⊆ f s a) :
    ∀ (l : List α) (s : Finset Pt), s ⊆ l.foldl f s := by
  intro l
  induction l with
  | nil => intro s; simp
  | cons a l ih => intro s; exact (hmono s a).trans (ih (f s a))

/-- A fold whose every step preserves a bound preserves it. -/
theorem foldl_vis_bound {α : Type} (f : Finset Pt → α → Finset Pt)
    (D : Finset Pt) :
    ∀ (l : List α) (s : Finset Pt),
      (∀ a ∈ l, ∀ s', s' ⊆ D → f s' a ⊆ D) → s ⊆ D → l.foldl f s ⊆ D := by
  intro l
  induction l with
  | nil => intro s _ hs; simpa using hs
  | cons a l ih =>
      intro s hstep hs
      exact ih (f s a) (fun b hb s' hs' => hstep b (by simp [hb]) s' hs')
        (hstep a (by simp) s hs)

/-- If some step of a monotone fold always adds `p`, the fold contains `p`. -/
theorem foldl_vis_attain {α : Type} (f : Finset Pt → α → Finset Pt)
    (hmono : ∀ s a, s ⊆ f s a) (p : Pt) :
    ∀ (l : List α) (a : α), a ∈ l → (∀ s, p ∈ f s a) →
      ∀ s : Finset Pt, p ∈ l.foldl f s := by
  intro l
  induction l with
  | nil => intro a ha; simp at ha
  | cons b l ih =>
      intro a ha hadd s
      rcases List.mem_cons.1 ha with rfl | ha'
      · exact foldl_vis_supset f hmono l (f s a) (hadd s)
      · exact ih a ha' hadd (f s b)

/-- Membership in the inclusive integer interval list. -/
theorem mem_intRangeAux (x : Int) :
    ∀ (n : Nat) (a : Int), x ∈ intRangeAux a n ↔ a ≤ x ∧ x < a + n := by
  intro n
  induction n with
  | zero =>
      intro a
      simp only [intRangeAux, List.not_mem_nil, false_iff]
      omega
  | succ n ih =>
      intro a
      simp only [intRangeAux, List.mem_cons, ih]
      push_cast
      omega

/-- Membership in the inclusive integer interval list. -/
theorem mem_intRange (a b x : Int) : x ∈ intRange a b ↔ a ≤ x ∧ x ≤ b := by
  unfold intRange
  rw [mem_intRangeAux]
  omega

/-- Membership in the in-grid point set. -/
theorem mem_gridPoints (g : FovGrid) (p : Pt) :
    p ∈ gridPoints g ↔ 0 ≤ p.1 ∧ p.1 < g.W ∧ 0 ≤ p.2 ∧ p.2 < g.H := by
  obtain ⟨x, y⟩ := p
  simp only [gridPoints, Finset.mem_product, List.mem_toFinset, mem_intRange]
  omega

/-- Membership in the disc set. -/
theorem mem_discSet (g : FovGrid) (ox oy radius : Int) (p : Pt) :
    p ∈ discSet g ox oy radius ↔
      (0 ≤ p.1 ∧ p.1 < g.W ∧ 0 ≤ p.2 ∧ p.2 < g.H)
      ∧ (p.1 - ox) * (p.1 - ox) + (p.2 - oy) * (p.2 - oy)
          ≤ radius * radius := by
  simp only [discSet, Finset.mem_filter, mem_gridPoints, decide_eq_true_eq]

/-- A point between two endpoints is no farther from the first than the
second is. -/
theorem between_sq_le (a b x : Int) (h : Between a b x) :
    (x - a) * (x - a) ≤ (b - a) * (b - a) := by
  rcases h with ⟨h1, h2⟩ | ⟨h1, h2⟩ <;> nlinarith

/-- Integer square-root comparison: `a² ≤ r²` and `0 ≤ r` bound `a`. -/
theorem sq_le_radius_bounds (a r : Int) (h : a * a ≤ r * r) (hr : 0 ≤ r) :
    -r ≤ a ∧ a ≤ r := by
  constructor <;> nlinarith

/-- The coordinate box spanned by the origin and an in-disc target lies
inside the disc. -/
theorem box_subset_disc (g : FovGrid) (ox oy tx ty radius : Int)
    (hox : fovInB g ox oy = true) (htx : fovInB g tx ty = true)
    (hdist : (tx - ox) * (tx - ox) + (ty - oy) * (ty - oy)
      ≤ radius * radius) :
    ∀ p : Pt, Between ox tx p.1 → Between oy ty p.2 →
      p ∈ discSet g ox oy radius := by
  intro p hbx hby
  have hoxb : 0 ≤ ox ∧ ox < g.W ∧ 0 ≤ oy ∧ oy < g.H := by
    simpa [fovInB] using hox
  have htxb : 0 ≤ tx ∧ tx < g.W ∧ 0 ≤ ty ∧ ty < g.H := by
    simpa [fovInB] using htx
  rw [mem_discSet]
  constructor
  · unfold Between at hbx hby
    omega
  · have h1 := between_sq_le ox tx p.1 hbx
    have h2 := between_sq_le oy ty p.2 hby
    have h3 : (0 : Int) ≤ (p.2 - oy) * (p.2 - oy) := mul_self_nonneg _
    have h4 : (0 : Int) ≤ (p.1 - ox) * (p.1 - ox) := mul_self_nonneg _
    nlinarith

/-- With no opaque tile in the disc, every point of the box spanned by the
origin and an in-disc target reads as non-blocking, bounds included. -/
theorem clean_box (g : FovGrid) (ox oy tx ty radius : Int)
    (hox : fovInB g ox oy = true) (htx : fovInB g tx ty = true)
    (hdist : (tx - ox) * (tx - ox) + (ty - oy) * (ty - oy)
      ≤ radius * radius)
    (hnw : noSolidWithin g ox oy radius) :
    ∀ x y, Between ox tx x → Between oy ty y → solidAt g x y = false := by
  intro x y hx hy
  have hp := box_subset_disc g ox oy tx ty radius hox htx hdist (x, y) hx hy
  rw [mem_discSet] at hp
  have hsolid := hnw (x, y) (by rw [mem_gridPoints]; exact hp.1) hp.2
  have hin : fovInB g x y = true := by
    simp [fovInB]
    omega
  simp [solidAt, hin, hsolid]

/-- Candidate processing only grows the visible set. -/
theorem processCandidate_supset (g : FovGrid) (ox oy R2 : Int)
    (vis : Finset Pt) (tx ty : Int) :
    vis ⊆ processCandidate g ox oy R2 vis tx ty := by
  unfold processCandidate
  by_cases h1 : tx = ox ∧ ty = oy
  · rw [if_pos h1]
  · rw [if_neg h1]
    by_cases h2 : (tx - ox) * (tx - ox) + (ty - oy) * (ty - oy) > R2
    · rw [if_pos h2]
    · rw [if_neg h2]
      by_cases h3 : (tx - ox ≠ 0 ∧ ty - oy ≠ 0) ∧ ¬ g.solid tx ty = true
          ∧ (solidAt g (ox + (if tx - ox > 0 then 1 else -1)) oy = true
            ∨ solidAt g ox (oy + (if ty - oy > 0 then 1 else -1)) = true)
      · rw [if_pos h3]
      · rw [if_neg h3]
        exact marchRay_supset g ox oy tx ty _ _ _ vis

/-- Candidate processing of an in-grid candidate keeps the visible set
inside the disc. -/
theorem processCandidate_bound (g : FovGrid) (ox oy radius : Int)
    (vis : Finset Pt) (tx ty : Int)
    (hox : fovInB g ox oy = true)
    (htx : 0 ≤ tx ∧ tx < g.W) (hty : 0 ≤ ty ∧ ty < g.H)
    (hvis : vis ⊆ discSet g ox oy radius) :
    processCandidate g ox oy (radius * radius) vis tx ty
      ⊆ discSet g ox oy radius := by
  unfold processCandidate
  by_cases h1 : tx = ox ∧ ty = oy
  · rw [if_pos h1]
    exact hvis
  · rw [if_neg h1]
    by_cases h2 : (tx - ox) * (tx - ox) + (ty - oy) * (ty - oy)
        > radius * radius
    · rw [if_pos h2]
      exact hvis
    · rw [if_neg h2]
      by_cases h3 : (tx - ox ≠ 0 ∧ ty - oy ≠ 0) ∧ ¬ g.solid tx ty = true
          ∧ (solidAt g (ox + (if tx - ox > 0 then 1 else -1)) oy = true
            ∨ solidAt g ox (oy + (if ty - oy > 0 then 1 else -1)) = true)
      · rw [if_pos h3]
        exact hvis
      · rw [if_neg h3]
        refine (marchRay_subset g ox oy tx ty _ (bres ox oy tx ty)
          (ox, oy) vis).trans ?_
        intro q hq
        rcases Finset.mem_union.1 hq with hq | hq
        · exact hvis hq
        · have hbox := (bres_spec ox oy tx ty).2 q (List.mem_toFinset.1 hq)
          have htxg : fovInB g tx ty = true := by
            simp [fovInB]
            omega
          exact box_subset_disc g ox oy tx ty radius hox htxg
            (le_of_not_lt h2) q hbox.1 hbox.2

/-- Under the no-walls hypothesis, processing the candidate `p` itself
always reveals `p`. -/
theorem processCandidate_attains (g : FovGrid) (ox oy radius : Int) (p : Pt)
    (hox : fovInB g ox oy = true)
    (hp : p ∈ discSet g ox oy radius)
    (hpo : p ≠ (ox, oy))
    (hnw : noSolidWithin g ox oy radius) :
    ∀ vis, p ∈ processCandidate g ox oy (radius * radius) vis p.1 p.2 := by
  intro vis
  have hpd := (mem_discSet g ox oy radius p).1 hp
  have htxg : fovInB g p.1 p.2 = true := by
    simp [fovInB]
    omega
  have hclear := clean_box g ox oy p.1 p.2 radius hox htxg hpd.2 hnw
  have hbx : Between ox p.1 p.1 := by unfold Between; omega
  have hby : Between oy p.2 p.2 := by unfold Between; omega
  have hTW : g.solid p.1 p.2 = false := by
    have hsa := hclear p.1 p.2 hbx hby
    simpa [solidAt, htxg] using hsa
  have h1 : ¬ (p.1 = ox ∧ p.2 = oy) := by
    intro h
    exact hpo (Prod.ext h.1 h.2)
  have h2 : ¬ ((p.1 - ox) * (p.1 - ox) + (p.2 - oy) * (p.2 - oy)
      > radius * radius) := not_lt.2 hpd.2
  have h3 : ¬ ((p.1 - ox ≠ 0 ∧ p.2 - oy ≠ 0) ∧ ¬ g.solid p.1 p.2 = true
      ∧ (solidAt g (ox + (if p.1 - ox > 0 then 1 else -1)) oy = true
        ∨ solidAt g ox (oy + (if p.2 - oy > 0 then 1 else -1)) = true)) := by
    rintro ⟨⟨hdx, hdy⟩, _, hdisj⟩
    have hbsx : Between ox p.1 (ox + (if p.1 - ox > 0 then 1 else -1)) := by
      unfold Between
      split_ifs <;> omega
    have hbsy : Between oy p.2 (oy + (if p.2 - oy > 0 then 1 else -1)) := by
      unfold Between
      split_ifs <;> omega
    have hA := hclear (ox + (if p.1 - ox > 0 then 1 else -1)) oy hbsx
      (by unfold Between; omega)
    have hB := hclear ox (oy + (if p.2 - oy > 0 then 1 else -1))
      (by unfold Between; omega) hbsy
    rcases hdisj with h | h
    · rw [hA] at h
      exact Bool.false_ne_true h
    · rw [hB] at h
      exact Bool.false_ne_true h
  unfold processCandidate
  rw [if_neg h1, if_neg h2, if_neg h3, hTW]
  rw [marchRay_clean g ox oy p.1 p.2 hclear (bres ox oy p.1 p.2) (ox, oy) vis
    (bres_spec ox oy p.1 p.2).2 (by unfold Between; omega) (by unfold Between; omega)]
  apply Finset.mem_union_right
  rw [Finset.mem_filter]
  refine ⟨List.mem_toFinset.2 ?_, hpo⟩
  have := (bres_spec ox oy p.1 p.2).1
  simpa using this

/-! ## C3 — FOV on a wall-free disc -/

/-- C3 counterexample: on the 3×1 grid whose only opaque tile is `(2,0)`,
with origin `(0,0)` and radius 1, no opaque tile lies within Euclidean
distance 1 of the origin, yet `compute_visible` does not return exactly the
in-grid disc: the corridor-wall second pass also reveals the wall `(2,0)`,
whose squared distance 4 exceeds 1. -/
theorem c3_cex_corridor_reveal :
    noSolidWithin fovWallRow 0 0 1
    ∧ computeVisible fovWallRow 0 0 1 ≠ discSet fovWallRow 0 0 1
    ∧ (2, 0) ∈ computeVisible fovWallRow 0 0 1
    ∧ ¬ ((2 : Int) - 0) * ((2 : Int) - 0) + ((0 : Int) - 0) * ((0 : Int) - 0)
        ≤ 1 * 1 := by
  refine ⟨by decide, by decide, by decide, by decide⟩

/-- C3 amended: for every grid, in-bounds origin and radius `R ≥ 0` such
that no opaque tile lies within Euclidean distance `R` of the origin AND no
opaque tile is 4-orthogonally adjacent to an in-grid point within distance
`R` (the extra condition the corridor-wall pass forces), `compute_visible`
returns exactly the set of in-grid points `(x, y)` with
`(x-ox)² + (y-oy)² ≤ R²`. -/
theorem c3_no_walls_disc (g : FovGrid) (ox oy radius : Int)
    (hin : fovInB g ox oy = true) (hrad : 0 ≤ radius)
    (hnw : noSolidWithin g ox oy radius)
    (hadj : noSolidAdjacent g ox oy radius) :
    computeVisible g ox oy radius = discSet g ox oy radius := by
  have hcond : ¬ (¬ fovInB g ox oy = true ∨ radius < 0) := by
    simp [hin]
    omega
  unfold computeVisible
  rw [if_neg hcond]
  have hinb : 0 ≤ ox ∧ ox < g.W ∧ 0 ≤ oy ∧ oy < g.H := by
    simpa [fovInB] using hin
  have horig : (ox, oy) ∈ discSet g ox oy radius := by
    rw [mem_discSet]
    exact ⟨hinb, by nlinarith [mul_self_nonneg radius]⟩
  have hmonoInner : ∀ (s : Finset Pt) (ty : Int),
      s ⊆ (intRange (max 0 (ox - radius)) (min (g.W - 1) (ox + radius))).foldl
        (fun vis' tx => processCandidate g ox oy (radius * radius) vis' tx ty)
        s :=
    fun s ty => foldl_vis_supset _ (fun s' tx => processCandidate_supset g ox oy _ s' tx ty) _ s
  have key : firstPass g ox oy radius = discSet g ox oy radius := by
    apply Finset.Subset.antisymm
    · apply foldl_vis_bound
      · intro ty hty s' hs'
        apply foldl_vis_bound
        · intro tx htx s'' hs''
          have htx' := (mem_intRange _ _ tx).1 htx
          have hty' := (mem_intRange _ _ ty).1 hty
          exact processCandidate_bound g ox oy radius s'' tx ty hin
            (by omega) (by omega) hs''
        · exact hs'
      · intro q hq
        rw [Finset.mem_singleton] at hq
        rw [hq]
        exact horig
    · intro p hp
      by_cases hpo : p = (ox, oy)
      · rw [hpo]
        exact foldl_vis_supset _ hmonoInner _ _ (Finset.mem_singleton_self _)
      · have hpd := (mem_discSet g ox oy radius p).1 hp
        have hx2 : (p.1 - ox) * (p.1 - ox) ≤ radius * radius := by
          nlinarith [mul_self_nonneg (p.2 - oy)]
        have hy2 : (p.2 - oy) * (p.2 - oy) ≤ radius * radius := by
          nlinarith [mul_self_nonneg (p.1 - ox)]
        have hxb := sq_le_radius_bounds (p.1 - ox) radius hx2 hrad
        have hyb := sq_le_radius_bounds (p.2 - oy) radius hy2 hrad
        apply foldl_vis_attain _ hmonoInner p _ p.2
          ((mem_intRange _ _ p.2).2 (by omega))
        intro s
        apply foldl_vis_attain _
          (fun s' tx => processCandidate_supset g ox oy _ s' tx p.2) p _ p.1
          ((mem_intRange _ _ p.1).2 (by omega))
        exact processCandidate_attains g ox oy radius p hin hp hpo hnw
  rw [key]
  unfold corridorReveal
  have hext : ((discSet g ox oy radius).filter
      (fun p => fovInB g p.1 p.2 ∧ ¬ g.solid p.1 p.2 = true)).biUnion
      (fun p => ((adj4 p).filter
        (fun q => fovInB g q.1 q.2 ∧ g.solid q.1 q.2)).toFinset) = ∅ := by
    ext q
    simp only [Finset.mem_biUnion, Finset.mem_filter, List.mem_toFinset,
      List.mem_filter, Finset.not_mem_empty, iff_false, not_exists]
    intro p hcontra
    obtain ⟨⟨hpD, -, -⟩, hq1, hq2d⟩ := hcontra
    have hq2 : fovInB g q.1 q.2 = true ∧ g.solid q.1 q.2 = true := by
      simpa using hq2d
    have hpd := (mem_discSet g ox oy radius p).1 hpD
    have hsolid := hadj p (by rw [mem_gridPoints]; exact hpd.1) hpd.2 q hq1 hq2.1
    rw [hsolid] at hq2
    exact Bool.false_ne_true hq2.2
  rw [hext, Finset.union_empty]

/-- Witness for the amended C3: the all-floor 3×3 grid, origin `(1,1)`,
radius 1. -/
theorem c3_witness :
    fovInB fovOpen3 1 1 = true
    ∧ noSolidWithin fovOpen3 1 1 1
    ∧ noSolidAdjacent fovOpen3 1 1 1
    ∧ computeVisible fovOpen3 1 1 1 = discSet fovOpen3 1 1 1 :=
  ⟨by decide, by decide, by decide,
    c3_no_walls_disc fovOpen3 1 1 1 (by decide) (by decide) (by decide)
      (by decide)⟩

end RPG
